import Mathlib

/-!
# Verification of the HabibiBloxberg client-side core

Shallow embedding of the two specified components of the repository:

* the animated square-grid background (`SquaresAnimation` in the unnamed
  animation script): per-frame offset updates, pointer-to-cell mapping,
  draw placement, and resize handling; JS numbers are modelled as exact
  rationals (`ℚ`) and the JS `%` operator as truncated remainder;

* the offline caching service worker (`sw.js`): the install / activate
  lifecycle over named cache generations and the fetch-interception proxy.

Each definition mirrors one construct of the source; the theorems settle
the frozen specification claims about them.
-/

/-! ## JS numeric primitives -/

/-- Truncation toward zero on rationals: the rounding used by the JS `%`
(remainder) operator, `trunc(a / b)`. -/
def ratTrunc (q : ℚ) : ℤ := if 0 ≤ q then ⌊q⌋ else ⌈q⌉

/-- The JS remainder operator `a % b`: `a - b * trunc(a / b)`.  The result
has the sign of the dividend `a`, unlike the mathematical modulus. -/
def jsMod (a b : ℚ) : ℚ := a - b * ratTrunc (a / b)

theorem ratTrunc_of_nonneg {q : ℚ} (h : 0 ≤ q) : ratTrunc q = ⌊q⌋ := by
  simp [ratTrunc, h]

/-- For a nonnegative dividend and positive divisor, the JS remainder
agrees with the mathematical modulus: it lies in `[0, b)`. -/
theorem jsMod_nonneg_of_nonneg {a b : ℚ} (ha : 0 ≤ a) (hb : 0 < b) :
    0 ≤ jsMod a b := by
  have hq : 0 ≤ a / b := div_nonneg ha hb.le
  have h1 : jsMod a b = b * Int.fract (a / b) := by
    rw [jsMod, ratTrunc_of_nonneg hq, Int.fract]
    field_simp
  rw [h1]
  exact mul_nonneg hb.le (Int.fract_nonneg _)

theorem jsMod_lt_of_nonneg {a b : ℚ} (ha : 0 ≤ a) (hb : 0 < b) :
    jsMod a b < b := by
  have hq : 0 ≤ a / b := div_nonneg ha hb.le
  have h1 : jsMod a b = b * Int.fract (a / b) := by
    rw [jsMod, ratTrunc_of_nonneg hq, Int.fract]
    field_simp
  rw [h1]
  calc b * Int.fract (a / b) < b * 1 :=
        mul_lt_mul_of_pos_left (Int.fract_lt_one _) hb
    _ = b := mul_one b

/-- The JS remainder is always congruent to its dividend modulo the
divisor (the correction term is an integer multiple of `b`). -/
theorem jsMod_sub_eq_int_mul (a b : ℚ) :
    ∃ k : ℤ, jsMod a b - a = k * b := by
  refine ⟨-ratTrunc (a / b), ?_⟩
  rw [jsMod]
  push_cast
  ring

/-! ## Animated grid renderer (`SquaresAnimation`) -/

/-- The five values accepted for `options.direction`. -/
inductive Direction
  | right
  | left
  | up
  | down
  | diagonal
deriving DecidableEq, Repr

/-- `Math.max(this.speed, 0.1)` computed at the top of
`updateAnimation`. -/
def effectiveSpeed (speed : ℚ) : ℚ := max speed (1/10)

/-- The speed stored by the constructor: `options.speed || 1`.  A missing
option (JS `undefined`) and the number `0` are both falsy, so both select
the default `1`; every other number is kept as given. -/
def ctorSpeed (opt : Option ℚ) : ℚ :=
  match opt with
  | none => 1
  | some v => if v = 0 then 1 else v

/-- The offset action of `SquaresAnimation.updateAnimation`: the `switch`
on `this.direction` that advances `this.gridOffset` by the effective speed
along the implied axis/axes, each moved component being replaced by
`(component ± effectiveSpeed + squareSize) % squareSize`. -/
def updateOffset (dir : Direction) (speed sz : ℚ) (off : ℚ × ℚ) : ℚ × ℚ :=
  let e := effectiveSpeed speed
  match dir with
  | Direction.right => (jsMod (off.1 - e + sz) sz, off.2)
  | Direction.left => (jsMod (off.1 + e + sz) sz, off.2)
  | Direction.up => (off.1, jsMod (off.2 + e + sz) sz)
  | Direction.down => (off.1, jsMod (off.2 - e + sz) sz)
  | Direction.diagonal =>
      (jsMod (off.1 - e + sz) sz, jsMod (off.2 - e + sz) sz)

/-- The grid-aligned start coordinate used by both `drawGrid` and
`handleMouseMove`: `Math.floor(gridOffset / squareSize) * squareSize`. -/
def startCoord (g sz : ℚ) : ℚ := ⌊g / sz⌋ * sz

/-- The loop coordinate of the `i`-th visited column (resp. row) in
`drawGrid`: the loop starts at the grid-aligned start coordinate and
advances by `squareSize` each iteration. -/
def loopCoord (g sz : ℚ) (i : ℤ) : ℚ := startCoord g sz + i * sz

/-- The pixel coordinate at which `drawGrid` places the square for loop
coordinate `x`: `x - (gridOffset % squareSize)`. -/
def drawSquareCoord (g sz x : ℚ) : ℚ := x - jsMod g sz

/-- The integer cell index `drawGrid` compares against the hovered square:
`Math.floor((x - startX) / squareSize)`. -/
def drawnIndex (g sz x : ℚ) : ℤ := ⌊(x - startCoord g sz) / sz⌋

/-- The pointer-to-cell mapping of `handleMouseMove` on one axis:
`Math.floor((mouse + gridOffset - start) / squareSize)`. -/
def hoveredIndex (g sz mouse : ℚ) : ℤ :=
  ⌊(mouse + g - startCoord g sz) / sz⌋

/-- The mutable state of a `SquaresAnimation` instance relevant to grid
geometry (colors are carried along as opaque strings). -/
structure AnimState where
  direction : Direction
  speed : ℚ
  borderColor : String
  squareSize : ℚ
  hoverFillColor : String
  width : ℚ
  height : ℚ
  numSquaresX : ℤ
  numSquaresY : ℤ
  gridOffset : ℚ × ℚ
  hoveredSquare : Option (ℤ × ℤ)
deriving Repr

/-- `SquaresAnimation.resizeCanvas`: store the new surface dimensions and
recompute the visible column/row counts as
`Math.ceil(dimension / squareSize) + 1`; nothing else is touched. -/
def resizeCanvas (rect : ℚ × ℚ) (s : AnimState) : AnimState :=
  { s with
    width := rect.1
    height := rect.2
    numSquaresX := ⌈rect.1 / s.squareSize⌉ + 1
    numSquaresY := ⌈rect.2 / s.squareSize⌉ + 1 }

/-- `SquaresAnimation.updateAnimation` restricted to the state it mutates:
the grid offset is advanced, everything else is preserved (the drawing
calls have no effect on the instance state). -/
def updateAnimation (s : AnimState) : AnimState :=
  { s with
    gridOffset := updateOffset s.direction s.speed s.squareSize s.gridOffset }

/-! ## Offline cache proxy (`sw.js`) -/

/-- A network (or stored) response: status code, response type (`"basic"`,
`"opaque"`, ...) and an opaque body. -/
structure SWResponse where
  status : ℕ
  rtype : String
  body : String
deriving DecidableEq, Repr

/-- An intercepted request: its method and the components of its URL the
worker inspects (`url.origin`, `url.hostname`) plus the full URL string,
which serves as the cache key for GET requests. -/
structure SWRequest where
  method : String
  origin : String
  hostname : String
  url : String
deriving DecidableEq, Repr

/-- Character-list version of JS `String.prototype.includes` restricted to
a pattern anchored at the head of the list. -/
def matchesAt : List Char → List Char → Bool
  | [], _ => true
  | _ :: _, [] => false
  | a :: pa, b :: pb => decide (a = b) && matchesAt pa pb

/-- Substring containment on character lists. -/
def hasSub (pat : List Char) : List Char → Bool
  | [] => pat.isEmpty
  | b :: rest => matchesAt pat (b :: rest) || hasSub pat rest

/-- JS `s.includes(pat)`: substring containment. -/
def strIncludes (s pat : String) : Bool := hasSub pat.toList s.toList

/-- The allow-list test of the fetch listener: same origin, or a hostname
containing `googleapis.com`, `gstatic.com` or `fontawesome.com`. -/
def isAllowedOrigin (selfOrigin : String) (req : SWRequest) : Bool :=
  decide (req.origin = selfOrigin)
    || strIncludes req.hostname "googleapis.com"
    || strIncludes req.hostname "gstatic.com"
    || strIncludes req.hostname "fontawesome.com"

/-- `const CACHE_NAME = 'habibibloxberg-v1'`. -/
def CACHE_NAME : String := "habibibloxberg-v1"

/-- `const urlsToCache = [...]`: the fixed install manifest. -/
def urlsToCache : List String :=
  ["/",
   "/index-improved.html",
   "/style-improved.css",
   "/script-improved.js",
   "/spiral-animation.js",
   "https://fonts.googleapis.com/css2?family=Inter:wght@400;500;600;700;800&family=JetBrains+Mono:wght@400;500&display=swap"]

/-- The entries of one cache generation: an association list from request
key (URL) to stored response. -/
abbrev CacheEntries := List (String × SWResponse)

/-- The browser's cache storage: the named cache generations in creation
order. -/
abbrev CacheStore := List (String × CacheEntries)

/-- Worker-visible state: the cache storage plus which version tag is
currently live (activated). -/
structure SWState where
  gens : CacheStore
  current : Option String
deriving DecidableEq, Repr

/-- Entry lookup inside one generation (`cache.match`). -/
def lookupEntry (key : String) : CacheEntries → Option SWResponse
  | [] => none
  | e :: rest => if e.1 = key then some e.2 else lookupEntry key rest

/-- `caches.match(request)`: search every stored generation, in order, for
an entry under the request key. -/
def cachesMatch (gens : CacheStore) (key : String) : Option SWResponse :=
  match gens with
  | [] => none
  | g :: rest =>
      match lookupEntry key g.2 with
      | some r => some r
      | none => cachesMatch rest key

/-- Insert-or-replace of one entry inside a generation's entry list
(`cache.put` on an opened cache). -/
def putEntry (key : String) (r : SWResponse) : CacheEntries → CacheEntries
  | [] => [(key, r)]
  | e :: rest =>
      if e.1 = key then (key, r) :: rest else e :: putEntry key r rest

/-- `caches.open(tag)` followed by `cache.put(key, r)`: store the response
under the key in the named generation, creating the generation when it
does not exist yet. -/
def cachePut (tag key : String) (r : SWResponse) : CacheStore → CacheStore
  | [] => [(tag, [(key, r)])]
  | g :: rest =>
      if g.1 = tag then (g.1, putEntry key r g.2) :: rest
      else g :: cachePut tag key r rest

/-- Generation lookup by tag in the cache storage. -/
def lookupGen (tag : String) : CacheStore → Option CacheEntries
  | [] => none
  | g :: rest => if g.1 = tag then some g.2 else lookupGen tag rest

/-- `caches.open(tag)` on its own: creates an empty generation with that
tag when none exists, otherwise leaves the storage unchanged. -/
def openCache (tag : String) (store : CacheStore) : CacheStore :=
  match lookupGen tag store with
  | some _ => store
  | none => store ++ [(tag, [])]

/-- `cache.addAll(urls)` against a network oracle `net` (`none` models a
failed fetch).  Modelled from the Cache API contract the install handler
relies on: `addAll` fetches every listed URL and rejects the whole
operation when any single fetch fails, storing entries only when all of
them succeeded (all-or-nothing). -/
def addAllEntries (net : String → Option SWResponse) :
    List String → Option CacheEntries
  | [] => some []
  | u :: rest =>
      match net u, addAllEntries net rest with
      | some r, some es => some ((u, r) :: es)
      | _, _ => none

/-- The install listener: open the `CACHE_NAME` generation, then
`cache.addAll(urlsToCache)`.  The returned flag is the outcome of the
promise passed to `event.waitUntil`: `false` means the install failed and
the worker version never becomes eligible for activation. -/
def installEvent (net : String → Option SWResponse) (st : SWState) :
    SWState × Bool :=
  let gens1 := openCache CACHE_NAME st.gens
  match addAllEntries net urlsToCache with
  | none => ({ st with gens := gens1 }, false)
  | some es =>
      ({ st with
          gens := gens1.map (fun g => if g.1 = CACHE_NAME then (g.1, es) else g) },
       true)

/-- The body of the activate listener on the stored generations: every
generation whose tag is not in the whitelist `[current]` is deleted
(`cacheWhitelist.indexOf(cacheName) === -1` → `caches.delete`). -/
def activateGens (current : String) (gens : CacheStore) : CacheStore :=
  gens.filter (fun g => decide (g.1 ∈ [current]))

/-- The activate listener: delete all stale generations and make
`CACHE_NAME` the live version. -/
def activateEvent (st : SWState) : SWState :=
  { gens := activateGens CACHE_NAME st.gens, current := some CACHE_NAME }

/-- The worker lifecycle for one version: install, then — only when the
install promise succeeded — activate.  A failed install leaves the
previously current version in place. -/
def lifecycle (net : String → Option SWResponse) (st : SWState) : SWState :=
  match installEvent net st with
  | (st1, false) => st1
  | (st1, true) => activateEvent st1

/-- What the fetch listener does with an intercepted request. -/
inductive FetchDecision
  | bypass
  | respond : Option SWResponse → FetchDecision
deriving DecidableEq, Repr

/-- Result of one run of the fetch listener: the decision handed to the
page, the worker state afterwards, and how many network fetches were
performed. -/
structure HandleOutcome where
  decision : FetchDecision
  state : SWState
  fetchCount : ℕ
deriving DecidableEq, Repr

/-- The fetch listener of `sw.js`: bypass non-GET and non-allow-listed
requests; otherwise answer from `caches.match` when it hits, and on a miss
fetch from the network, returning the response as-is — additionally
storing a copy under `CACHE_NAME` when it is present, has status 200 and
is not opaque. -/
def handleFetch (selfOrigin : String) (net : SWRequest → Option SWResponse)
    (st : SWState) (req : SWRequest) : HandleOutcome :=
  if req.method ≠ "GET" then ⟨FetchDecision.bypass, st, 0⟩
  else if ¬ isAllowedOrigin selfOrigin req then ⟨FetchDecision.bypass, st, 0⟩
  else
    match cachesMatch st.gens req.url with
    | some resp => ⟨FetchDecision.respond (some resp), st, 0⟩
    | none =>
        match net req with
        | none => ⟨FetchDecision.respond none, st, 1⟩
        | some resp =>
            if resp.status ≠ 200 ∨ resp.rtype = "opaque" then
              ⟨FetchDecision.respond (some resp), st, 1⟩
            else
              ⟨FetchDecision.respond (some resp),
               { st with gens := cachePut CACHE_NAME req.url resp st.gens },
               1⟩

/-- The claim's notion of a *successful* HTTP status: the 2xx class. -/
def isSuccessStatus (n : ℕ) : Bool := decide (200 ≤ n) && decide (n < 300)

/-! ## Helper lemmas -/

/-- The JS remainder differs from its dividend by an integer multiple of
the divisor. -/
theorem jsMod_eq_add_int_mul (a b : ℚ) :
    ∃ k : ℤ, jsMod a b = a + k * b := by
  refine ⟨-ratTrunc (a / b), ?_⟩
  rw [jsMod]
  push_cast
  ring

/-- One per-frame offset update keeps both components inside
`[0, squareSize)` as soon as the effective speed does not exceed the
square size. -/
theorem updateOffset_preserves_range
    (dir : Direction) {speed sz : ℚ}
    (hpos : 0 < speed) (hsp : speed ≤ sz) (hsz : (1:ℚ)/10 ≤ sz)
    {off : ℚ × ℚ}
    (h1 : 0 ≤ off.1) (h2 : off.1 < sz) (h3 : 0 ≤ off.2) (h4 : off.2 < sz) :
    0 ≤ (updateOffset dir speed sz off).1 ∧
      (updateOffset dir speed sz off).1 < sz ∧
      0 ≤ (updateOffset dir speed sz off).2 ∧
      (updateOffset dir speed sz off).2 < sz := by
  have hszpos : 0 < sz := lt_of_lt_of_le (by norm_num) hsz
  have hemax : effectiveSpeed speed ≤ sz := max_le hsp hsz
  have hepos : 0 < effectiveSpeed speed :=
    lt_of_lt_of_le hpos (le_max_left _ _)
  cases dir with
  | right =>
      simp only [updateOffset]
      exact ⟨jsMod_nonneg_of_nonneg (by linarith) hszpos,
        jsMod_lt_of_nonneg (by linarith) hszpos, h3, h4⟩
  | left =>
      simp only [updateOffset]
      exact ⟨jsMod_nonneg_of_nonneg (by linarith) hszpos,
        jsMod_lt_of_nonneg (by linarith) hszpos, h3, h4⟩
  | up =>
      simp only [updateOffset]
      exact ⟨h1, h2, jsMod_nonneg_of_nonneg (by linarith) hszpos,
        jsMod_lt_of_nonneg (by linarith) hszpos⟩
  | down =>
      simp only [updateOffset]
      exact ⟨h1, h2, jsMod_nonneg_of_nonneg (by linarith) hszpos,
        jsMod_lt_of_nonneg (by linarith) hszpos⟩
  | diagonal =>
      simp only [updateOffset]
      exact ⟨jsMod_nonneg_of_nonneg (by linarith) hszpos,
        jsMod_lt_of_nonneg (by linarith) hszpos,
        jsMod_nonneg_of_nonneg (by linarith) hszpos,
        jsMod_lt_of_nonneg (by linarith) hszpos⟩

/-- One-axis inverse consistency between draw placement and the hover
mapping, for an offset inside the wrap invariant `[0, squareSize)`. -/
theorem axis_hover_eq_drawn
    {g sz : ℚ} (i : ℤ) (hsz : 0 < sz) (h0 : 0 ≤ g) (h1 : g < sz) :
    drawnIndex g sz (loopCoord g sz i) = i ∧
      hoveredIndex g sz (drawSquareCoord g sz (loopCoord g sz i) + sz / 2) = i := by
  have hfl : ⌊g / sz⌋ = 0 :=
    Int.floor_eq_zero_iff.mpr ⟨div_nonneg h0 hsz.le, (div_lt_one hsz).mpr h1⟩
  have hstart : startCoord g sz = 0 := by
    rw [startCoord, hfl]
    push_cast
    ring
  have hmod : jsMod g sz = g := by
    rw [jsMod, ratTrunc_of_nonneg (div_nonneg h0 hsz.le), hfl]
    push_cast
    ring
  have hne : sz ≠ 0 := ne_of_gt hsz
  constructor
  · rw [drawnIndex, loopCoord, hstart]
    rw [show (0 : ℚ) + i * sz - 0 = i * sz by ring]
    rw [mul_div_cancel_right₀ _ hne, Int.floor_intCast]
  · rw [hoveredIndex, drawSquareCoord, loopCoord, hstart, hmod]
    rw [show (0 : ℚ) + i * sz - g + sz / 2 + g - 0 = i * sz + sz / 2 by ring]
    rw [show ((i : ℚ) * sz + sz / 2) / sz = (i : ℚ) + 1/2 by field_simp; ring]
    rw [Int.floor_int_add]
    norm_num

/-! ## Claim theorems -/

/-- **C1** (amended).  For every direction and every positive speed not
exceeding `squareSize` (with `squareSize ≥ 0.1`, so that the effective
per-frame speed `max(speed, 0.1)` never exceeds `squareSize`), each
component of the grid offset lies in `[0, squareSize)` after every
per-frame update: one update preserves the range, and every iterate of
the update from the initial offset `(0, 0)` stays in the range.  (The
unrestricted claim — *any* positive speed — is refuted by
`updateOffset_overshoot_counterexample`.) -/
theorem updateOffset_range_invariant
    (dir : Direction) (speed sz : ℚ)
    (hpos : 0 < speed) (hsp : speed ≤ sz) (hsz : (1:ℚ)/10 ≤ sz) :
    (∀ off : ℚ × ℚ, 0 ≤ off.1 → off.1 < sz → 0 ≤ off.2 → off.2 < sz →
        0 ≤ (updateOffset dir speed sz off).1 ∧
        (updateOffset dir speed sz off).1 < sz ∧
        0 ≤ (updateOffset dir speed sz off).2 ∧
        (updateOffset dir speed sz off).2 < sz) ∧
    (∀ n : ℕ,
        0 ≤ ((updateOffset dir speed sz)^[n] (0, 0)).1 ∧
        ((updateOffset dir speed sz)^[n] (0, 0)).1 < sz ∧
        0 ≤ ((updateOffset dir speed sz)^[n] (0, 0)).2 ∧
        ((updateOffset dir speed sz)^[n] (0, 0)).2 < sz) := by
  have hszpos : 0 < sz := lt_of_lt_of_le (by norm_num) hsz
  refine ⟨fun off h1 h2 h3 h4 =>
      updateOffset_preserves_range dir hpos hsp hsz h1 h2 h3 h4, ?_⟩
  intro n
  induction n with
  | zero =>
      simp only [Function.iterate_zero, id_eq]
      exact ⟨le_refl (0:ℚ), hszpos, le_refl (0:ℚ), hszpos⟩
  | succ n ih =>
      rw [Function.iterate_succ_apply']
      exact updateOffset_preserves_range dir hpos hsp hsz
        ih.1 ih.2.1 ih.2.2.1 ih.2.2.2

/-- Witness for `updateOffset_range_invariant`: the repository's own
configuration (`diagonal`, speed `0.8`, square size `40`), checked after
five frames. -/
theorem updateOffset_range_invariant_witness :
    (0 : ℚ) < 4/5 ∧ (4/5 : ℚ) ≤ 40 ∧ (1 : ℚ)/10 ≤ 40 ∧
    (0 ≤ ((updateOffset Direction.diagonal (4/5) 40)^[5] (0, 0)).1 ∧
      ((updateOffset Direction.diagonal (4/5) 40)^[5] (0, 0)).1 < 40 ∧
      0 ≤ ((updateOffset Direction.diagonal (4/5) 40)^[5] (0, 0)).2 ∧
      ((updateOffset Direction.diagonal (4/5) 40)^[5] (0, 0)).2 < 40) :=
  ⟨by norm_num, by norm_num, by norm_num,
    (updateOffset_range_invariant Direction.diagonal (4/5) 40
      (by norm_num) (by norm_num) (by norm_num)).2 5⟩

/-- **C1**, counterexample to the claim as frozen: with direction `right`,
square size `40` and the positive speed `81`, a single update from the
initial offset `(0, 0)` produces the x-component `-1`, which is outside
`[0, 40)` — the JS remainder keeps the sign of its dividend, and
`0 - 81 + 40` is negative. -/
theorem updateOffset_overshoot_counterexample :
    (0 : ℚ) < 81 ∧
    (updateOffset Direction.right 81 40 (0, 0)).1 = -1 ∧
    ¬ (0 ≤ (updateOffset Direction.right 81 40 (0, 0)).1) := by
  have he : effectiveSpeed (81 : ℚ) = 81 := max_eq_left (by norm_num)
  have harg : (0 : ℚ) - 81 + 40 = -41 := by norm_num
  have htr : ratTrunc ((-41 : ℚ) / 40) = -1 := by
    rw [ratTrunc, if_neg (by norm_num),
      show ((-41 : ℚ) / 40) = -(41/40) by ring, Int.ceil_neg]
    norm_num
  have hj : jsMod ((0 : ℚ) - 81 + 40) 40 = -1 := by
    rw [harg, jsMod, htr]
    norm_num
  have hval : (updateOffset Direction.right 81 40 (0, 0)).1 = -1 := by
    simp only [updateOffset, he]
    exact hj
  exact ⟨by norm_num, hval, by rw [hval]; norm_num⟩

/-- The offset component moved by a single-axis direction (`x` for
`right`/`left`, `y` for `up`/`down`). -/
def movedComponent (dir : Direction) (off : ℚ × ℚ) : ℚ :=
  match dir with
  | Direction.up => off.2
  | Direction.down => off.2
  | _ => off.1

/-- **C7**.  For every cell actually drawn by `drawGrid` (loop coordinate
inside the visible band, offsets inside the wrap invariant
`[0, squareSize)`), a pointer placed at the pixel center of the drawn cell
is mapped by `handleMouseMove` back to exactly the integer grid indices
`drawGrid` uses for the hover comparison: the hover mapping inverts the
draw placement on both axes. -/
theorem hover_maps_back_to_drawn_cell
    (gx gy sz w h : ℚ) (i j : ℤ)
    (hsz : 0 < sz)
    (hgx0 : 0 ≤ gx) (hgx1 : gx < sz) (hgy0 : 0 ≤ gy) (hgy1 : gy < sz)
    (hi : 0 ≤ i) (hj : 0 ≤ j)
    (hiw : loopCoord gx sz i < w + sz) (hjh : loopCoord gy sz j < h + sz) :
    drawnIndex gx sz (loopCoord gx sz i) = i ∧
    drawnIndex gy sz (loopCoord gy sz j) = j ∧
    hoveredIndex gx sz (drawSquareCoord gx sz (loopCoord gx sz i) + sz / 2) = i ∧
    hoveredIndex gy sz (drawSquareCoord gy sz (loopCoord gy sz j) + sz / 2) = j :=
  ⟨(axis_hover_eq_drawn i hsz hgx0 hgx1).1,
   (axis_hover_eq_drawn j hsz hgy0 hgy1).1,
   (axis_hover_eq_drawn i hsz hgx0 hgx1).2,
   (axis_hover_eq_drawn j hsz hgy0 hgy1).2⟩

/-- Witness for `hover_maps_back_to_drawn_cell`: square size `40`, offset
`(12, 20)`, cell `(3, 4)` on a `200 × 200` surface. -/
theorem hover_maps_back_to_drawn_cell_witness :
    (0 : ℚ) < 40 ∧ (0 : ℚ) ≤ 12 ∧ (12 : ℚ) < 40 ∧
    (0 : ℚ) ≤ 20 ∧ (20 : ℚ) < 40 ∧
    loopCoord 12 40 3 < 200 + 40 ∧ loopCoord 20 40 4 < 200 + 40 ∧
    (drawnIndex 12 40 (loopCoord 12 40 3) = 3 ∧
     drawnIndex 20 40 (loopCoord 20 40 4) = 4 ∧
     hoveredIndex 12 40 (drawSquareCoord 12 40 (loopCoord 12 40 3) + 40 / 2) = 3 ∧
     hoveredIndex 20 40 (drawSquareCoord 20 40 (loopCoord 20 40 4) + 40 / 2) = 4) :=
  ⟨by norm_num, by norm_num, by norm_num, by norm_num, by norm_num,
   by norm_num [loopCoord, startCoord], by norm_num [loopCoord, startCoord],
   hover_maps_back_to_drawn_cell 12 20 40 200 200 3 4
     (by norm_num) (by norm_num) (by norm_num) (by norm_num) (by norm_num)
     (by norm_num) (by norm_num)
     (by norm_num [loopCoord, startCoord])
     (by norm_num [loopCoord, startCoord])⟩

/-- **C8** (amended).  For every single-axis direction and every starting
offset, updating with speed `s` and then with speed `squareSize − s`
returns the moved component to its original value modulo `squareSize` —
provided both speeds are at least the effective minimum `0.1` (i.e.
`0.1 ≤ s ≤ squareSize − 0.1`), so that the `max(speed, 0.1)` floor leaves
them unchanged and the two applied deltas sum to exactly `squareSize`.
(For `s` below `0.1` the claim as frozen fails:
`singleAxis_wrap_counterexample`.) -/
theorem singleAxis_wrap_consistent
    (dir : Direction) (s sz x y : ℚ)
    (hdir : dir ≠ Direction.diagonal)
    (hs : (1:ℚ)/10 ≤ s) (hs2 : (1:ℚ)/10 ≤ sz - s) :
    ∃ k : ℤ,
      movedComponent dir
          (updateOffset dir (sz - s) sz (updateOffset dir s sz (x, y)))
        - movedComponent dir (x, y) = k * sz := by
  have he1 : effectiveSpeed s = s := max_eq_left hs
  have he2 : effectiveSpeed (sz - s) = sz - s := max_eq_left hs2
  cases dir with
  | diagonal => exact absurd rfl hdir
  | right =>
      simp only [updateOffset, movedComponent, he1, he2]
      obtain ⟨k1, hk1⟩ := jsMod_eq_add_int_mul (x - s + sz) sz
      obtain ⟨k2, hk2⟩ :=
        jsMod_eq_add_int_mul (jsMod (x - s + sz) sz - (sz - s) + sz) sz
      refine ⟨k1 + k2 + 1, ?_⟩
      rw [hk2, hk1]
      push_cast
      ring
  | left =>
      simp only [updateOffset, movedComponent, he1, he2]
      obtain ⟨k1, hk1⟩ := jsMod_eq_add_int_mul (x + s + sz) sz
      obtain ⟨k2, hk2⟩ :=
        jsMod_eq_add_int_mul (jsMod (x + s + sz) sz + (sz - s) + sz) sz
      refine ⟨k1 + k2 + 3, ?_⟩
      rw [hk2, hk1]
      push_cast
      ring
  | up =>
      simp only [updateOffset, movedComponent, he1, he2]
      obtain ⟨k1, hk1⟩ := jsMod_eq_add_int_mul (y + s + sz) sz
      obtain ⟨k2, hk2⟩ :=
        jsMod_eq_add_int_mul (jsMod (y + s + sz) sz + (sz - s) + sz) sz
      refine ⟨k1 + k2 + 3, ?_⟩
      rw [hk2, hk1]
      push_cast
      ring
  | down =>
      simp only [updateOffset, movedComponent, he1, he2]
      obtain ⟨k1, hk1⟩ := jsMod_eq_add_int_mul (y - s + sz) sz
      obtain ⟨k2, hk2⟩ :=
        jsMod_eq_add_int_mul (jsMod (y - s + sz) sz - (sz - s) + sz) sz
      refine ⟨k1 + k2 + 1, ?_⟩
      rw [hk2, hk1]
      push_cast
      ring

/-- Witness for `singleAxis_wrap_consistent`: direction `right`, speed
`10` then `30`, square size `40`, start `(7, 3)`. -/
theorem singleAxis_wrap_consistent_witness :
    Direction.right ≠ Direction.diagonal ∧
    (1:ℚ)/10 ≤ 10 ∧ (1:ℚ)/10 ≤ 40 - 10 ∧
    ∃ k : ℤ,
      movedComponent Direction.right
          (updateOffset Direction.right (40 - 10) 40
            (updateOffset Direction.right 10 40 (7, 3)))
        - movedComponent Direction.right (7, 3) = k * 40 :=
  ⟨by decide, by norm_num, by norm_num,
   singleAxis_wrap_consistent Direction.right 10 40 7 3
     (by decide) (by norm_num) (by norm_num)⟩

/-- **C8**, counterexample to the claim as frozen: with direction `right`,
square size `40`, speed `s = 0.05` (positive and below the `0.1` effective
minimum) from offset `(0, 0)`, the two updates apply `0.1` and then
`39.95`, landing on `39.95`, which is not congruent to the original `0`
modulo `40`. -/
theorem singleAxis_wrap_counterexample :
    (0 : ℚ) < 1/20 ∧ (1/20 : ℚ) < 40 ∧
    movedComponent Direction.right
        (updateOffset Direction.right (40 - 1/20) 40
          (updateOffset Direction.right (1/20) 40 (0, 0)))
      = 799/20 ∧
    ¬ ∃ k : ℤ,
        movedComponent Direction.right
            (updateOffset Direction.right (40 - 1/20) 40
              (updateOffset Direction.right (1/20) 40 (0, 0)))
          - movedComponent Direction.right ((0 : ℚ), (0 : ℚ)) = k * 40 := by
  have he1 : effectiveSpeed (1/20 : ℚ) = 1/10 := max_eq_right (by norm_num)
  have he2 : effectiveSpeed (40 - 1/20 : ℚ) = 40 - 1/20 :=
    max_eq_left (by norm_num)
  have hj1 : jsMod ((0 : ℚ) - 1/10 + 40) 40 = 399/10 := by
    rw [jsMod, ratTrunc_of_nonneg (by norm_num)]
    norm_num
  have hj2 : jsMod ((399/10 : ℚ) - (40 - 1/20) + 40) 40 = 799/20 := by
    rw [jsMod, ratTrunc_of_nonneg (by norm_num)]
    norm_num
  have hstep1 : updateOffset Direction.right (1/20) 40 (0, 0) =
      ((399/10 : ℚ), (0 : ℚ)) := by
    simp only [updateOffset, he1]
    rw [Prod.mk.injEq]
    exact ⟨hj1, rfl⟩
  have hval : movedComponent Direction.right
      (updateOffset Direction.right (40 - 1/20) 40
        (updateOffset Direction.right (1/20) 40 (0, 0))) = 799/20 := by
    rw [hstep1]
    simp only [updateOffset, movedComponent, he2]
    exact hj2
  refine ⟨by norm_num, by norm_num, hval, ?_⟩
  rintro ⟨k, hk⟩
  rw [hval] at hk
  simp only [movedComponent] at hk
  have hq : (799 : ℚ) = (k : ℚ) * 800 := by linarith
  have hz : (799 : ℤ) = k * 800 := by exact_mod_cast hq
  omega

/-- **C9**.  `resizeCanvas` recomputes the visible column and row counts
as `ceil(dimension / squareSize) + 1` from the new surface dimensions and
leaves the grid offset — and the rest of the configuration — unchanged:
the scroll phase is not reset. -/
theorem resizeCanvas_recomputes_counts_keeps_offset
    (s : AnimState) (rect : ℚ × ℚ) :
    (resizeCanvas rect s).width = rect.1 ∧
    (resizeCanvas rect s).height = rect.2 ∧
    (resizeCanvas rect s).numSquaresX = ⌈rect.1 / s.squareSize⌉ + 1 ∧
    (resizeCanvas rect s).numSquaresY = ⌈rect.2 / s.squareSize⌉ + 1 ∧
    (resizeCanvas rect s).gridOffset = s.gridOffset ∧
    (resizeCanvas rect s).direction = s.direction ∧
    (resizeCanvas rect s).speed = s.speed ∧
    (resizeCanvas rect s).squareSize = s.squareSize ∧
    (resizeCanvas rect s).hoveredSquare = s.hoveredSquare :=
  ⟨rfl, rfl, rfl, rfl, rfl, rfl, rfl, rfl, rfl⟩

/-- **C10**.  `options.speed = 0` (like any falsy value, e.g. a missing
option) makes the constructor store the default speed `1`, so a frame
advances the moved offset component by exactly `1` pixel
(`(5 - 1 + 40) % 40 = 4`); the `0.1` effective-minimum floor engages only
for explicitly configured positive speeds below `0.1` (here `0.05`),
never for speed `0`. -/
theorem ctorSpeed_zero_defaults_to_one :
    ctorSpeed (some 0) = 1 ∧
    ctorSpeed none = 1 ∧
    effectiveSpeed (ctorSpeed (some 0)) = 1 ∧
    (updateOffset Direction.right (ctorSpeed (some 0)) 40 (5, 0)).1 = 4 ∧
    ctorSpeed (some (1/20)) = 1/20 ∧
    effectiveSpeed (ctorSpeed (some (1/20))) = 1/10 := by
  have hc0 : ctorSpeed (some 0) = 1 := by simp [ctorSpeed]
  have hcn : ctorSpeed none = 1 := rfl
  have hcs : ctorSpeed (some (1/20 : ℚ)) = 1/20 := by
    rw [ctorSpeed, if_neg (by norm_num)]
  have he1 : effectiveSpeed (1 : ℚ) = 1 := max_eq_left (by norm_num)
  have hupd : (updateOffset Direction.right (ctorSpeed (some 0)) 40 (5, 0)).1 = 4 := by
    rw [hc0]
    simp only [updateOffset, he1]
    rw [jsMod, ratTrunc_of_nonneg (by norm_num)]
    norm_num
  refine ⟨hc0, hcn, by rw [hc0]; exact he1, hupd, hcs, ?_⟩
  rw [hcs, effectiveSpeed, max_eq_right (by norm_num)]

/-! ## Cache proxy lemmas -/

/-- `putEntry` makes the written key readable. -/
theorem lookupEntry_putEntry_self (key : String) (r : SWResponse) :
    ∀ es : CacheEntries, lookupEntry key (putEntry key r es) = some r := by
  intro es
  induction es with
  | nil => simp [putEntry, lookupEntry]
  | cons e rest ih =>
      by_cases h : e.1 = key
      · simp [putEntry, lookupEntry, h]
      · simp [putEntry, lookupEntry, h, ih]

/-- Splitting a non-hit of `cachesMatch` at the head generation. -/
theorem cachesMatch_cons_none {g : String × CacheEntries} {gens : CacheStore}
    {key : String} (h : cachesMatch (g :: gens) key = none) :
    lookupEntry key g.2 = none ∧ cachesMatch gens key = none := by
  cases hl : lookupEntry key g.2 with
  | some r => rw [cachesMatch, hl] at h; exact absurd h (by simp)
  | none => rw [cachesMatch, hl] at h; exact ⟨rfl, h⟩

/-- After a `cachePut` of a key that no generation held, `caches.match`
finds exactly the stored response. -/
theorem cachesMatch_cachePut_self (tag key : String) (r : SWResponse) :
    ∀ gens : CacheStore, cachesMatch gens key = none →
      cachesMatch (cachePut tag key r gens) key = some r := by
  intro gens
  induction gens with
  | nil =>
      intro _
      simp [cachePut, cachesMatch, lookupEntry]
  | cons g rest ih =>
      intro h
      obtain ⟨hg, hrest⟩ := cachesMatch_cons_none h
      by_cases ht : g.1 = tag
      · rw [cachePut, if_pos ht, cachesMatch, lookupEntry_putEntry_self]
      · rw [cachePut, if_neg ht, cachesMatch, hg]
        exact ih hrest

/-- A failing URL in the manifest makes the whole `addAll` fail. -/
theorem addAllEntries_eq_none {net : String → Option SWResponse}
    {u : String} (hn : net u = none) :
    ∀ urls : List String, u ∈ urls → addAllEntries net urls = none := by
  intro urls
  induction urls with
  | nil => intro h; exact absurd h (List.not_mem_nil u)
  | cons v rest ih =>
      intro h
      rcases List.mem_cons.mp h with h1 | h2
      · rw [addAllEntries, ← h1, hn]
      · rw [addAllEntries, ih h2]
        cases net v <;> rfl

/-- A tag absent from the storage is found, with its entries, after being
appended. -/
theorem lookupGen_append_self (tag : String) (es : CacheEntries) :
    ∀ store : CacheStore, lookupGen tag store = none →
      lookupGen tag (store ++ [(tag, es)]) = some es := by
  intro store
  induction store with
  | nil => intro _; simp [lookupGen]
  | cons g rest ih =>
      intro h
      by_cases ht : g.1 = tag
      · rw [lookupGen, if_pos ht] at h; exact absurd h (by simp)
      · rw [lookupGen, if_neg ht] at h
        rw [List.cons_append, lookupGen, if_neg ht]
        exact ih h

/-- Reduction of the fetch listener on a participating request that hits
the cache. -/
theorem handleFetch_hit_eq (so : String) (net : SWRequest → Option SWResponse)
    (st : SWState) (req : SWRequest) (r : SWResponse)
    (hm : req.method = "GET") (ha : isAllowedOrigin so req = true)
    (hhit : cachesMatch st.gens req.url = some r) :
    handleFetch so net st req = ⟨FetchDecision.respond (some r), st, 0⟩ := by
  rw [handleFetch, if_neg (by simp [hm]), if_neg (by simp [ha]), hhit]

/-- Reduction of the fetch listener on a participating request that
misses the cache. -/
theorem handleFetch_miss_eq (so : String) (net : SWRequest → Option SWResponse)
    (st : SWState) (req : SWRequest)
    (hm : req.method = "GET") (ha : isAllowedOrigin so req = true)
    (hmiss : cachesMatch st.gens req.url = none) :
    handleFetch so net st req =
      match net req with
      | none => ⟨FetchDecision.respond none, st, 1⟩
      | some resp =>
          if resp.status ≠ 200 ∨ resp.rtype = "opaque" then
            ⟨FetchDecision.respond (some resp), st, 1⟩
          else
            ⟨FetchDecision.respond (some resp),
             { st with gens := cachePut CACHE_NAME req.url resp st.gens },
             1⟩ := by
  rw [handleFetch, if_neg (by simp [hm]), if_neg (by simp [ha]), hmiss]

/-- **C2**.  A GET request to an allow-listed origin whose key is already
stored is answered with the stored response, with no network fetch and no
state change; consequently, issuing the same GET twice in a row — with a
deterministic network stub returning a storable (status-200, non-opaque)
response and no intervening cache clear — performs at most one network
fetch in total. -/
theorem fetch_cache_hit_short_circuit
    (so : String) (net : SWRequest → Option SWResponse)
    (st : SWState) (req : SWRequest) (nr : SWResponse)
    (hm : req.method = "GET") (ha : isAllowedOrigin so req = true) :
    (∀ r : SWResponse, cachesMatch st.gens req.url = some r →
        handleFetch so net st req = ⟨FetchDecision.respond (some r), st, 0⟩) ∧
    (net req = some nr → nr.status = 200 → nr.rtype ≠ "opaque" →
        (handleFetch so net st req).fetchCount
          + (handleFetch so net (handleFetch so net st req).state req).fetchCount
          ≤ 1) := by
  refine ⟨fun r hhit => handleFetch_hit_eq so net st req r hm ha hhit, ?_⟩
  intro hnet hst hop
  cases hmatch : cachesMatch st.gens req.url with
  | some r =>
      have h1 : handleFetch so net st req =
          ⟨FetchDecision.respond (some r), st, 0⟩ :=
        handleFetch_hit_eq so net st req r hm ha hmatch
      simp [h1]
  | none =>
      have h1 : handleFetch so net st req =
          ⟨FetchDecision.respond (some nr),
           { st with gens := cachePut CACHE_NAME req.url nr st.gens }, 1⟩ := by
        rw [handleFetch_miss_eq so net st req hm ha hmatch]
        simp only [hnet]
        rw [if_neg (by simp [hst, hop])]
      rw [h1]
      have h2 : handleFetch so net
          { st with gens := cachePut CACHE_NAME req.url nr st.gens } req =
          ⟨FetchDecision.respond (some nr),
           { st with gens := cachePut CACHE_NAME req.url nr st.gens }, 0⟩ :=
        handleFetch_hit_eq so net _ req nr hm ha
          (cachesMatch_cachePut_self CACHE_NAME req.url nr st.gens hmatch)
      rw [h2]
      simp

/-- Witness for `fetch_cache_hit_short_circuit`: a same-origin GET against
an empty store with a deterministic 200 stub. -/
theorem fetch_cache_hit_short_circuit_witness :
    (⟨"GET", "https://example.com", "example.com", "https://example.com/a"⟩ :
        SWRequest).method = "GET" ∧
    isAllowedOrigin "https://example.com"
      ⟨"GET", "https://example.com", "example.com", "https://example.com/a"⟩
      = true ∧
    ((∀ r : SWResponse,
        cachesMatch (SWState.mk [] none).gens
          (SWRequest.mk "GET" "https://example.com" "example.com"
            "https://example.com/a").url = some r →
        handleFetch "https://example.com"
            (fun _ => some ⟨200, "basic", "x"⟩) ⟨[], none⟩
            ⟨"GET", "https://example.com", "example.com", "https://example.com/a"⟩
          = ⟨FetchDecision.respond (some r), ⟨[], none⟩, 0⟩) ∧
      ((fun _ => some (⟨200, "basic", "x"⟩ : SWResponse))
            (⟨"GET", "https://example.com", "example.com",
              "https://example.com/a"⟩ : SWRequest)
          = some ⟨200, "basic", "x"⟩ →
        (⟨200, "basic", "x"⟩ : SWResponse).status = 200 →
        (⟨200, "basic", "x"⟩ : SWResponse).rtype ≠ "opaque" →
        (handleFetch "https://example.com"
            (fun _ => some ⟨200, "basic", "x"⟩) ⟨[], none⟩
            ⟨"GET", "https://example.com", "example.com",
              "https://example.com/a"⟩).fetchCount
          + (handleFetch "https://example.com"
              (fun _ => some ⟨200, "basic", "x"⟩)
              (handleFetch "https://example.com"
                (fun _ => some ⟨200, "basic", "x"⟩) ⟨[], none⟩
                ⟨"GET", "https://example.com", "example.com",
                  "https://example.com/a"⟩).state
              ⟨"GET", "https://example.com", "example.com",
                "https://example.com/a"⟩).fetchCount ≤ 1)) :=
  ⟨rfl, by decide,
   fetch_cache_hit_short_circuit "https://example.com"
     (fun _ => some ⟨200, "basic", "x"⟩) ⟨[], none⟩
     ⟨"GET", "https://example.com", "example.com", "https://example.com/a"⟩
     ⟨200, "basic", "x"⟩ rfl (by decide)⟩

/-- **C5**.  A request that is not a GET, or whose target origin is
neither same-origin nor allow-listed, is bypassed entirely: the listener
returns without `respondWith` and the cache store is left exactly as it
was, so no entry for the request is ever added. -/
theorem fetch_nonparticipating_bypassed
    (so : String) (net : SWRequest → Option SWResponse)
    (st : SWState) (req : SWRequest)
    (h : req.method ≠ "GET" ∨ isAllowedOrigin so req = false) :
    handleFetch so net st req = ⟨FetchDecision.bypass, st, 0⟩ ∧
    (handleFetch so net st req).state.gens = st.gens := by
  have heq : handleFetch so net st req = ⟨FetchDecision.bypass, st, 0⟩ := by
    by_cases hm : req.method = "GET"
    · rcases h with h1 | h2
      · exact absurd hm h1
      · rw [handleFetch, if_neg (by simp [hm]), if_pos (by simp [h2])]
    · rw [handleFetch, if_pos hm]
  exact ⟨heq, by rw [heq]⟩

/-- Witness for `fetch_nonparticipating_bypassed`: a POST request to the
page's own origin. -/
theorem fetch_nonparticipating_bypassed_witness :
    ((⟨"POST", "https://example.com", "example.com", "https://example.com/api"⟩ :
        SWRequest).method ≠ "GET" ∨
      isAllowedOrigin "https://example.com"
        ⟨"POST", "https://example.com", "example.com", "https://example.com/api"⟩
        = false) ∧
    (handleFetch "https://example.com" (fun _ => none)
        ⟨[(CACHE_NAME, [])], some CACHE_NAME⟩
        ⟨"POST", "https://example.com", "example.com", "https://example.com/api"⟩
      = ⟨FetchDecision.bypass, ⟨[(CACHE_NAME, [])], some CACHE_NAME⟩, 0⟩ ∧
     (handleFetch "https://example.com" (fun _ => none)
        ⟨[(CACHE_NAME, [])], some CACHE_NAME⟩
        ⟨"POST", "https://example.com", "example.com",
          "https://example.com/api"⟩).state.gens
      = [(CACHE_NAME, [])]) :=
  ⟨Or.inl (by decide),
   fetch_nonparticipating_bypassed "https://example.com" (fun _ => none)
     ⟨[(CACHE_NAME, [])], some CACHE_NAME⟩
     ⟨"POST", "https://example.com", "example.com", "https://example.com/api"⟩
     (Or.inl (by decide))⟩

/-- **C6** (amended).  On a cache miss the proxy fetches from the network
and: when the response is absent, has a status other than `200`, or is
opaque, it returns the response as-is and stores nothing; when the
response has status exactly `200` and is not opaque, it stores a copy
under the request key in the `CACHE_NAME` generation and returns the
original response.  (The frozen claim's wording — *every successful,
non-opaque response is stored* — is refuted for the successful status
`204` by `success_status_not_stored_counterexample`.) -/
theorem fetch_miss_caching_policy
    (so : String) (net : SWRequest → Option SWResponse)
    (st : SWState) (req : SWRequest)
    (hm : req.method = "GET") (ha : isAllowedOrigin so req = true)
    (hmiss : cachesMatch st.gens req.url = none) :
    (net req = none →
        handleFetch so net st req = ⟨FetchDecision.respond none, st, 1⟩) ∧
    (∀ r : SWResponse, net req = some r →
        (r.status ≠ 200 ∨ r.rtype = "opaque" →
          handleFetch so net st req = ⟨FetchDecision.respond (some r), st, 1⟩) ∧
        (r.status = 200 → r.rtype ≠ "opaque" →
          handleFetch so net st req =
            ⟨FetchDecision.respond (some r),
             { st with gens := cachePut CACHE_NAME req.url r st.gens }, 1⟩ ∧
          cachesMatch
              (cachePut CACHE_NAME req.url r st.gens) req.url = some r)) := by
  constructor
  · intro hnet
    rw [handleFetch_miss_eq so net st req hm ha hmiss]
    simp only [hnet]
  · intro r hnet
    constructor
    · intro hbad
      rw [handleFetch_miss_eq so net st req hm ha hmiss]
      simp only [hnet]
      rw [if_pos hbad]
    · intro hst hop
      refine ⟨?_, cachesMatch_cachePut_self CACHE_NAME req.url r st.gens hmiss⟩
      rw [handleFetch_miss_eq so net st req hm ha hmiss]
      simp only [hnet]
      rw [if_neg (by simp [hst, hop])]

/-- Witness for `fetch_miss_caching_policy`: a same-origin GET
against the empty store. -/
theorem fetch_miss_caching_policy_witness :
    (⟨"GET", "https://example.com", "example.com", "https://example.com/a"⟩ :
        SWRequest).method = "GET" ∧
    isAllowedOrigin "https://example.com"
      ⟨"GET", "https://example.com", "example.com", "https://example.com/a"⟩
      = true ∧
    cachesMatch (SWState.mk [] none).gens
      (SWRequest.mk "GET" "https://example.com" "example.com"
        "https://example.com/a").url = none ∧
    (∀ r : SWResponse,
        (fun _ => some (⟨200, "basic", "x"⟩ : SWResponse))
            (⟨"GET", "https://example.com", "example.com",
              "https://example.com/a"⟩ : SWRequest) = some r →
        (r.status ≠ 200 ∨ r.rtype = "opaque" →
          handleFetch "https://example.com"
              (fun _ => some ⟨200, "basic", "x"⟩) ⟨[], none⟩
              ⟨"GET", "https://example.com", "example.com",
                "https://example.com/a"⟩
            = ⟨FetchDecision.respond (some r), ⟨[], none⟩, 1⟩) ∧
        (r.status = 200 → r.rtype ≠ "opaque" →
          handleFetch "https://example.com"
              (fun _ => some ⟨200, "basic", "x"⟩) ⟨[], none⟩
              ⟨"GET", "https://example.com", "example.com",
                "https://example.com/a"⟩
            = ⟨FetchDecision.respond (some r),
               { SWState.mk [] none with
                  gens := cachePut CACHE_NAME
                    (SWRequest.mk "GET" "https://example.com" "example.com"
                      "https://example.com/a").url r [] },
               1⟩ ∧
          cachesMatch
              (cachePut CACHE_NAME
                (SWRequest.mk "GET" "https://example.com" "example.com"
                  "https://example.com/a").url r [])
              (SWRequest.mk "GET" "https://example.com" "example.com"
                "https://example.com/a").url = some r)) :=
  ⟨rfl, by decide, rfl,
   (fetch_miss_caching_policy "https://example.com"
       (fun _ => some ⟨200, "basic", "x"⟩) ⟨[], none⟩
       ⟨"GET", "https://example.com", "example.com", "https://example.com/a"⟩
       rfl (by decide) rfl).2⟩

/-- **C6**, counterexample to the claim as frozen: a deterministic stub
returning status `204` — a successful (2xx), non-opaque response — is
returned as-is on a miss, and nothing is stored: the code caches only
status exactly `200`, not every successful status. -/
theorem success_status_not_stored_counterexample :
    isSuccessStatus 204 = true ∧
    (⟨204, "basic", "x"⟩ : SWResponse).rtype ≠ "opaque" ∧
    handleFetch "https://example.com"
        (fun _ => some ⟨204, "basic", "x"⟩) ⟨[], none⟩
        ⟨"GET", "https://example.com", "example.com", "https://example.com/a"⟩
      = ⟨FetchDecision.respond (some ⟨204, "basic", "x"⟩), ⟨[], none⟩, 1⟩ ∧
    (handleFetch "https://example.com"
        (fun _ => some ⟨204, "basic", "x"⟩) ⟨[], none⟩
        ⟨"GET", "https://example.com", "example.com",
          "https://example.com/a"⟩).state.gens = [] := by
  refine ⟨by decide, by decide, ?_, ?_⟩ <;> decide

/-- **C3**.  If any fetch of the fixed install manifest fails, the whole
install fails (the `waitUntil` promise rejects): the freshly opened
generation is left with no entries at all — never a partially populated
one — and activation does not run, so the new generation does not become
current. -/
theorem install_failure_is_atomic
    (net : String → Option SWResponse) (st : SWState) (u : String)
    (hu : u ∈ urlsToCache) (hn : net u = none)
    (hfresh : lookupGen CACHE_NAME st.gens = none) :
    (installEvent net st).2 = false ∧
    (installEvent net st).1.current = st.current ∧
    lookupGen CACHE_NAME (installEvent net st).1.gens = some [] ∧
    lifecycle net st = (installEvent net st).1 ∧
    (lifecycle net st).current = st.current := by
  have hadd : addAllEntries net urlsToCache = none :=
    addAllEntries_eq_none hn urlsToCache hu
  have hopen : openCache CACHE_NAME st.gens = st.gens ++ [(CACHE_NAME, [])] := by
    rw [openCache, hfresh]
  have hinst : installEvent net st =
      ({ st with gens := st.gens ++ [(CACHE_NAME, []) ] }, false) := by
    rw [installEvent]
    simp only [hadd, hopen]
  have hlife : lifecycle net st = { st with gens := st.gens ++ [(CACHE_NAME, [])] } := by
    rw [lifecycle]
    simp only [hinst]
  refine ⟨by rw [hinst], by rw [hinst], ?_, by rw [hlife, hinst], by rw [hlife]⟩
  rw [hinst]
  exact lookupGen_append_self CACHE_NAME [] st.gens hfresh

/-- Witness for `install_failure_is_atomic`: a network that fails every
fetch, starting from an empty cache storage with no live version. -/
theorem install_failure_is_atomic_witness :
    "/" ∈ urlsToCache ∧
    ((fun _ => none) : String → Option SWResponse) "/" = none ∧
    lookupGen CACHE_NAME (SWState.mk [] none).gens = none ∧
    ((installEvent (fun _ => none) ⟨[], none⟩).2 = false ∧
     (installEvent (fun _ => none) ⟨[], none⟩).1.current = none ∧
     lookupGen CACHE_NAME (installEvent (fun _ => none) ⟨[], none⟩).1.gens
       = some [] ∧
     lifecycle (fun _ => none) ⟨[], none⟩
       = (installEvent (fun _ => none) ⟨[], none⟩).1 ∧
     (lifecycle (fun _ => none) ⟨[], none⟩).current = none) :=
  ⟨by decide, rfl, rfl,
   install_failure_is_atomic (fun _ => none) ⟨[], none⟩ "/"
     (by decide) rfl rfl⟩

/-- **C4**.  Activation deletes exactly the stored generations whose tag
differs from the current version and keeps the rest untouched (a
generation survives iff it was stored and its tag is the current one);
it is idempotent, so activating again when only the current generation
remains is a no-op; and from tags `v1, v2, v3` with current `v3`, only
`v3` remains. -/
theorem activate_deletes_exactly_stale
    (current : String) (gens : CacheStore) (e1 e2 e3 : CacheEntries) :
    (∀ g : String × CacheEntries,
        g ∈ activateGens current gens ↔ g ∈ gens ∧ g.1 = current) ∧
    activateGens current (activateGens current gens)
      = activateGens current gens ∧
    activateGens "v3" [("v1", e1), ("v2", e2), ("v3", e3)] = [("v3", e3)] := by
  refine ⟨?_, ?_, ?_⟩
  · intro g
    simp [activateGens, List.mem_filter]
  · simp [activateGens, List.filter_filter]
  · simp [activateGens, List.filter]
